import Mathlib

/-!
Verification of the batched bulk-insert core of go-datapipe (`src/bulk/bulk.go`).

The Go code is shallowly embedded: database values are the opaque `Val` type,
strings are lists of characters (`Str`), and each method of `*bulk.Bulk`
becomes a pure function on an explicit `Bulk` state.  Calls into the database
driver (`BeginTx`, `Stmt.Exec`, `Tx.Commit`, `Rows.Scan`, `PrepareContext`)
are external effects; their success or failure is supplied by the caller
through an `ExtCall` / `FlushExt` record, and the number of times each kind of
call happens is tracked in observation counters (`fullExecs`,
`remainderExecs`, `txBegins`, `commits`) carried alongside the Go struct
fields.  These counters are not fields of the Go struct; they record the
externally observable events the specification talks about.
-/

namespace GoDatapipe

/-- Strings are modelled as lists of characters (Go's `string`, compared and
concatenated byte-wise in the source). -/
abbrev Str := List Char

/-- A database value held in the insert buffer (Go `interface{}`).  The
concrete shape is irrelevant to the bulk logic; `null` is the zero value. -/
inductive Val where
  | null : Val
  | int (n : Int) : Val
  | str (t : Str) : Val
deriving DecidableEq

/-- The backquote character used by the MySQL-style identifier quoting in
`FqSchemaTable` (Go writes it literally). -/
def bq : Str := [Char.ofNat 96]

/-- The dot separating schema and table in a qualified name. -/
def dotStr : Str := ".".toList

/-- Comma separator written between columns / placeholder groups. -/
def commaStr : Str := ",".toList

/-- `strings.HasPrefix(x, "\x60") && strings.HasSuffix(x, "\x60")`:
the quoted-identifier test used by `FqSchemaTable`. -/
def isQuoted (x : Str) : Bool := List.isPrefixOf bq x && List.isSuffixOf bq x

/-- `fmt.Sprintf("\x60%s\x60", x)` applied only when `x` is not already
quoted: the per-identifier quoting step of `FqSchemaTable`
(src/bulk/bulk.go lines 124-138). -/
def qId (x : Str) : Str := if isQuoted x then x else bq ++ x ++ bq

/-- `(*Bulk).FqSchemaTable` (src/bulk/bulk.go lines 123-141): concatenates
schema and table, quoting each identifier unless it is already quoted;
an empty schema yields just the quoted table name. -/
def FqSchemaTable (schema table : Str) : Str :=
  if schema = [] then qId table
  else qId schema ++ dotStr ++ qId table

/-- The Go struct `bulk.Bulk` together with observation counters for the
external database calls.  `txOpen` stands for `r.tx != nil`; the driver
handles (`conn`, `stmt`, `valuePtrs`) have no bearing on the verified
state and are omitted. -/
structure Bulk where
  txOpen : Bool
  schema : Str
  tableName : Str
  columns : List Str
  maxRowTxCommit : Nat
  buf : List Val
  bufSz : Nat
  bufPos : Nat
  colCount : Nat
  rowPos : Nat
  totalRowCount : Nat
  /-- observation: number of `r.stmt.Exec` calls (full-batch statement). -/
  fullExecs : Nat
  /-- observation: number of remainder statements executed in `Flush`. -/
  remainderExecs : Nat
  /-- observation: number of `r.conn.BeginTx` calls. -/
  txBegins : Nat
  /-- observation: number of `tx.Commit` calls. -/
  commits : Nat
deriving DecidableEq

/-- Outcomes of the external calls one `Append` may perform.  `scanOk` is the
outcome of `rows.Scan`; the source discards it (line 37), so the embedding
never reads the field. -/
structure ExtCall where
  scanOk : Bool
  beginOk : Bool
  execOk : Bool
  commitOk : Bool
deriving DecidableEq

/-- Outcomes of the external calls one `Flush` may perform. -/
structure FlushExt where
  prepareOk : Bool
  execOk : Bool
  commitOk : Bool
deriving DecidableEq

/-- All external calls succeed (the happy path of a run). -/
def allOk : ExtCall := { scanOk := true, beginOk := true, execOk := true, commitOk := true }

/-- All external calls in `Flush` succeed. -/
def allOkF : FlushExt := { prepareOk := true, execOk := true, commitOk := true }

/-- The copy loop of `Append` (src/bulk/bulk.go lines 40-43):
`for i := 0; i < r.colCount; i++ { r.buf[r.bufPos] = r.values[i]; r.bufPos++ }`.
Returns the updated buffer and the updated `bufPos`. -/
def copyLoop : List Val → Nat → List Val → List Val × Nat
  | buf, pos, [] => (buf, pos)
  | buf, pos, v :: rest => copyLoop (buf.set pos v) (pos + 1) rest

/-- `r.stmt.Exec(r.buf...)` followed by the buffer reset
(src/bulk/bulk.go lines 64-69). -/
def execFull (r : Bulk) (ext : ExtCall) : Bulk × Bool :=
  if ext.execOk then
    ({ r with fullExecs := r.fullExecs + 1, bufPos := 0, rowPos := 0 }, true)
  else (r, false)

/-- The buffer-full branch of `Append` (src/bulk/bulk.go lines 57-70):
lazily begins a transaction when none is open, then executes the prepared
full-batch statement and resets the buffer.  The second component is
`true` when no error is returned. -/
def bufFullCheck (r : Bulk) (ext : ExtCall) : Bulk × Bool :=
  if r.bufSz ≤ r.bufPos then
    if r.txOpen then execFull r ext
    else if ext.beginOk then
      execFull { r with txOpen := true, txBegins := r.txBegins + 1 } ext
    else (r, false)
  else (r, true)

/-- The commit-threshold check of `Append` (src/bulk/bulk.go lines 48-54)
followed by the buffer-full check: commit only when a transaction is open
and the total row count is a positive multiple of `maxRowTxCommit`. -/
def appendChecks (r1 : Bulk) (ext : ExtCall) : Bulk × Bool :=
  if r1.txOpen = true ∧ 0 < r1.totalRowCount ∧
      r1.totalRowCount % r1.maxRowTxCommit = 0 then
    if ext.commitOk then
      bufFullCheck { r1 with txOpen := false, commits := r1.commits + 1 } ext
    else (r1, false)
  else bufFullCheck r1 ext

/-- `(*Bulk).Append` (src/bulk/bulk.go lines 36-73).  The error returned by
`rows.Scan` is discarded by the source, so `ext.scanOk` is never consulted.
The row values are copied into the buffer and the counters bumped, then the
commit-threshold check runs, then the buffer-full check.  The second
component is `true` when `Append` returns a nil error. -/
def Bulk.append (r : Bulk) (values : List Val) (ext : ExtCall) : Bulk × Bool :=
  appendChecks
    { r with buf := (copyLoop r.buf r.bufPos values).1,
             bufPos := (copyLoop r.buf r.bufPos values).2,
             rowPos := r.rowPos + 1,
             totalRowCount := r.totalRowCount + 1 } ext

/-- The trailing commit of `Flush` (src/bulk/bulk.go lines 111-115): commit
only when a transaction is open (the source keeps `r.tx` non-nil after this
commit).  Returns (state, reported row count, nil-error flag). -/
def flushCommit (r : Bulk) (ext : FlushExt) : Bulk × Nat × Bool :=
  if r.txOpen then
    if ext.commitOk then ({ r with commits := r.commits + 1 }, r.totalRowCount, true)
    else (r, 0, false)
  else (r, r.totalRowCount, true)

/-- `(*Bulk).Flush` (src/bulk/bulk.go lines 85-118): when rows remain
buffered, a remainder-sized statement is prepared and executed with the
first `bufPos` buffered values, `rowPos` is added to `totalRowCount`, and
the buffer is reset; finally any open transaction is committed.  On an
error the source returns `(0, err)`. -/
def Bulk.flush (r : Bulk) (ext : FlushExt) : Bulk × Nat × Bool :=
  if 0 < r.bufPos then
    if ext.prepareOk then
      if ext.execOk then
        flushCommit { r with remainderExecs := r.remainderExecs + 1,
                             totalRowCount := r.totalRowCount + r.rowPos,
                             bufPos := 0, rowPos := 0 } ext
      else (r, 0, false)
    else (r, 0, false)
  else flushCommit r ext

/-- `(*Bulk).Close` (src/bulk/bulk.go lines 76-82): calls `r.stmt.Close()`
discarding its result, and returns nil.  `stmtCloseOk` is the outcome of
that discarded call. -/
def Bulk.close (r : Bulk) (_stmtCloseOk : Bool) : Bulk × Bool := (r, true)

/-- `NewBulk` (src/bulk/bulk.go lines 180-208): the freshly constructed
state (no transaction, zeroed positions, buffer of `colCount * rowCount`
zero values).  The full-batch statement prepared here is a driver handle
and carries no state of its own. -/
def NewBulk (columns : List Str) (schema tableName : Str)
    (rowCount maxRowTxCommit : Nat) : Bulk :=
  { txOpen := false
    schema := schema
    tableName := tableName
    columns := columns
    maxRowTxCommit := maxRowTxCommit
    buf := List.replicate (columns.length * rowCount) Val.null
    bufSz := columns.length * rowCount
    bufPos := 0
    colCount := columns.length
    rowPos := 0
    totalRowCount := 0
    fullExecs := 0
    remainderExecs := 0
    txBegins := 0
    commits := 0 }

/-- Driving a sequence of rows through `Append` on the happy path (every
external call succeeds), as the orchestrator's cursor loop does
(src/datapipe.go lines 196-207). -/
def runAppends : Bulk → List (List Val) → Bulk
  | r, [] => r
  | r, v :: rest => runAppends (Bulk.append r v allOk).1 rest

/-- The index-driven comma-separated emission loop of `prepare`
(src/bulk/bulk.go lines 151-156 and 161-175): item `i` is preceded by a
comma when `i > 0`. -/
def rangeJoin (f : Nat → Str) (n : Nat) : Str :=
  (List.range n).foldl (fun acc i => acc ++ (if 0 < i then commaStr else []) ++ f i) []

/-- The SQL text built by `(*Bulk).prepare` (src/bulk/bulk.go lines 145-178)
for a given row count: header, qualified table, column list, and one
placeholder group per row. -/
def prepareSql (schema tableName : Str) (columns : List Str) (rowCount : Nat) : Str :=
  "INSERT INTO ".toList ++ FqSchemaTable schema tableName
    ++ " (".toList
    ++ rangeJoin (fun i => columns.getD i []) columns.length
    ++ ") VALUES ".toList
    ++ rangeJoin
        (fun _ => "(".toList ++ rangeJoin (fun _ => "?".toList) columns.length ++ ")".toList)
        rowCount

/-- Comma-joined concatenation, following the spec's description of the
statement shape (items "separated by commas"). -/
def joinComma : List Str → Str
  | [] => []
  | [x] => x
  | x :: y :: rest => x ++ commaStr ++ joinComma (y :: rest)

/-- Modelled from the spec (section 4.3 / section 8): the INSERT statement
shape `INSERT INTO <qualified-table> (<col1>,...,<colN>) VALUES` followed by
exactly `rowCount` parenthesized placeholder groups separated by commas,
each group containing exactly `N` placeholders. -/
def specInsertSql (schema tableName : Str) (columns : List Str) (rowCount : Nat) : Str :=
  "INSERT INTO ".toList ++ FqSchemaTable schema tableName
    ++ " (".toList
    ++ joinComma columns
    ++ ") VALUES ".toList
    ++ joinComma (List.replicate rowCount
        ("(".toList ++ joinComma (List.replicate columns.length "?".toList) ++ ")".toList))

/-- States reachable from `NewBulk` by successful `Append` and `Flush`
calls (each row has one value per column; an errored call is fatal for the
run per the specification, so runs continue only after success). -/
inductive Reachable (cols : List Str) (schema table : Str) (B M : Nat) : Bulk → Prop where
  | init : Reachable cols schema table B M (NewBulk cols schema table B M)
  | append (s : Bulk) (v : List Val) (hv : v.length = cols.length)
      (hs : Reachable cols schema table B M s) :
      Reachable cols schema table B M (Bulk.append s v allOk).1
  | flush (s : Bulk) (hs : Reachable cols schema table B M s) :
      Reachable cols schema table B M (Bulk.flush s allOkF).1

/-- Column name used in concrete evaluations. -/
def cStr : Str := "c".toList

/-- Table name used in concrete evaluations. -/
def tStr : Str := "t".toList

/-! ### Helper lemmas about the embedded operations -/

theorem copyLoop_snd (v : List Val) : ∀ (buf : List Val) (pos : Nat),
    (copyLoop buf pos v).2 = pos + v.length := by
  induction v with
  | nil => intro buf pos; simp [copyLoop]
  | cons a t ih =>
    intro buf pos
    simp only [copyLoop, ih, List.length_cons]
    omega

theorem bufFullCheck_notFull (r : Bulk) (ext : ExtCall) (h : r.bufPos < r.bufSz) :
    bufFullCheck r ext = (r, true) := by
  unfold bufFullCheck
  rw [if_neg (by omega)]

theorem bufFullCheck_full_ok (r : Bulk) (h : r.bufSz ≤ r.bufPos) :
    (bufFullCheck r allOk).2 = true ∧
    (bufFullCheck r allOk).1.bufPos = 0 ∧
    (bufFullCheck r allOk).1.rowPos = 0 ∧
    (bufFullCheck r allOk).1.fullExecs = r.fullExecs + 1 ∧
    (bufFullCheck r allOk).1.buf = r.buf ∧
    (bufFullCheck r allOk).1.bufSz = r.bufSz ∧
    (bufFullCheck r allOk).1.colCount = r.colCount ∧
    (bufFullCheck r allOk).1.totalRowCount = r.totalRowCount ∧
    (bufFullCheck r allOk).1.remainderExecs = r.remainderExecs := by
  unfold bufFullCheck execFull allOk
  rw [if_pos h]
  cases ht : r.txOpen <;> simp [ht]

theorem bufFullCheck_execFail (r : Bulk) (ext : ExtCall)
    (h : r.bufSz ≤ r.bufPos) (he : ext.execOk = false) (hb : ext.beginOk = true) :
    (bufFullCheck r ext).2 = false ∧
    (bufFullCheck r ext).1.bufPos = r.bufPos ∧
    (bufFullCheck r ext).1.rowPos = r.rowPos ∧
    (bufFullCheck r ext).1.buf = r.buf ∧
    (bufFullCheck r ext).1.totalRowCount = r.totalRowCount := by
  unfold bufFullCheck execFull
  rw [if_pos h]
  cases ht : r.txOpen <;> simp [ht, he, hb]

theorem bufFullCheck_commits (r : Bulk) (ext : ExtCall) :
    (bufFullCheck r ext).1.commits = r.commits := by
  unfold bufFullCheck execFull
  split_ifs <;> simp

theorem appendChecks_toBufFull (r1 : Bulk) (ext : ExtCall) (hc : ext.commitOk = true) :
    ∃ r2 : Bulk,
      appendChecks r1 ext = bufFullCheck r2 ext ∧
      r2.buf = r1.buf ∧ r2.bufPos = r1.bufPos ∧ r2.bufSz = r1.bufSz ∧
      r2.rowPos = r1.rowPos ∧ r2.totalRowCount = r1.totalRowCount ∧
      r2.fullExecs = r1.fullExecs ∧ r2.remainderExecs = r1.remainderExecs ∧
      r2.colCount = r1.colCount := by
  unfold appendChecks
  simp only [hc, if_true]
  split_ifs with h1
  · exact ⟨_, rfl, rfl, rfl, rfl, rfl, rfl, rfl, rfl, rfl⟩
  · exact ⟨r1, rfl, rfl, rfl, rfl, rfl, rfl, rfl, rfl, rfl⟩

theorem append_step_notFull (r : Bulk) (v : List Val) (B cc : Nat)
    (hcc : 0 < cc) (hv : v.length = cc)
    (hsz : r.bufSz = cc * B) (hbp : r.bufPos = r.rowPos * cc)
    (hlt : r.rowPos + 1 < B) :
    (Bulk.append r v allOk).1.totalRowCount = r.totalRowCount + 1 ∧
    (Bulk.append r v allOk).1.bufSz = r.bufSz ∧
    (Bulk.append r v allOk).1.remainderExecs = r.remainderExecs ∧
    (Bulk.append r v allOk).1.rowPos = r.rowPos + 1 ∧
    (Bulk.append r v allOk).1.bufPos = (r.rowPos + 1) * cc ∧
    (Bulk.append r v allOk).1.fullExecs = r.fullExecs := by
  unfold Bulk.append
  obtain ⟨r2, heq, hbuf, hpos, hsz2, hrow, htot, hfull, hrem, hcol⟩ :=
    appendChecks_toBufFull
      { r with buf := (copyLoop r.buf r.bufPos v).1,
               bufPos := (copyLoop r.buf r.bufPos v).2,
               rowPos := r.rowPos + 1,
               totalRowCount := r.totalRowCount + 1 } allOk rfl
  rw [heq]
  have hp : (copyLoop r.buf r.bufPos v).2 = (r.rowPos + 1) * cc := by
    rw [copyLoop_snd, hbp, hv]; ring
  have hlt2 : r2.bufPos < r2.bufSz := by
    simp only [hpos, hsz2, hp]
    show (r.rowPos + 1) * cc < r.bufSz
    rw [hsz, Nat.mul_comm (r.rowPos + 1) cc]
    exact mul_lt_mul_of_pos_left hlt hcc
  rw [bufFullCheck_notFull r2 allOk hlt2]
  simp only [htot, hsz2, hrem, hrow, hpos, hfull, hp]
  simp

theorem append_step_full (r : Bulk) (v : List Val) (B cc : Nat)
    (_hcc : 0 < cc) (hv : v.length = cc)
    (hsz : r.bufSz = cc * B) (hbp : r.bufPos = r.rowPos * cc)
    (heqB : r.rowPos + 1 = B) :
    (Bulk.append r v allOk).1.totalRowCount = r.totalRowCount + 1 ∧
    (Bulk.append r v allOk).1.bufSz = r.bufSz ∧
    (Bulk.append r v allOk).1.remainderExecs = r.remainderExecs ∧
    (Bulk.append r v allOk).1.rowPos = 0 ∧
    (Bulk.append r v allOk).1.bufPos = 0 ∧
    (Bulk.append r v allOk).1.fullExecs = r.fullExecs + 1 := by
  unfold Bulk.append
  obtain ⟨r2, heq, hbuf, hpos, hsz2, hrow, htot, hfull, hrem, hcol⟩ :=
    appendChecks_toBufFull
      { r with buf := (copyLoop r.buf r.bufPos v).1,
               bufPos := (copyLoop r.buf r.bufPos v).2,
               rowPos := r.rowPos + 1,
               totalRowCount := r.totalRowCount + 1 } allOk rfl
  rw [heq]
  have hp : (copyLoop r.buf r.bufPos v).2 = (r.rowPos + 1) * cc := by
    rw [copyLoop_snd, hbp, hv]; ring
  have hge : r2.bufSz ≤ r2.bufPos := by
    simp only [hpos, hsz2, hp]
    show r.bufSz ≤ (r.rowPos + 1) * cc
    rw [hsz, heqB, Nat.mul_comm B cc]
  obtain ⟨h1, h2, h3, h4, h5, h6, h7, h8, h9⟩ := bufFullCheck_full_ok r2 hge
  refine ⟨?_, ?_, ?_, h3, h2, ?_⟩
  · rw [h8, htot]
  · rw [h6, hsz2]
  · rw [h9, hrem]
  · rw [h4, hfull]

theorem runAppends_counts (B cc : Nat) (hcc : 0 < cc) :
    ∀ (rows : List (List Val)) (r : Bulk),
      (∀ v ∈ rows, v.length = cc) →
      r.bufSz = cc * B →
      r.bufPos = r.rowPos * cc →
      r.rowPos < B →
      (runAppends r rows).totalRowCount = r.totalRowCount + rows.length ∧
      (runAppends r rows).fullExecs = r.fullExecs + (r.rowPos + rows.length) / B ∧
      (runAppends r rows).rowPos = (r.rowPos + rows.length) % B ∧
      (runAppends r rows).bufPos = ((r.rowPos + rows.length) % B) * cc ∧
      (runAppends r rows).bufSz = r.bufSz ∧
      (runAppends r rows).remainderExecs = r.remainderExecs := by
  intro rows
  induction rows with
  | nil =>
    intro r hrows hsz hbp hlt
    refine ⟨by simp [runAppends], ?_, ?_, ?_, by simp [runAppends], by simp [runAppends]⟩
    · simp [runAppends, Nat.div_eq_of_lt hlt]
    · simp [runAppends, Nat.mod_eq_of_lt hlt]
    · simp [runAppends, Nat.mod_eq_of_lt hlt, hbp]
  | cons v rest ih =>
    intro r hrows hsz hbp hlt
    have hv : v.length = cc := hrows v (List.mem_cons_self v rest)
    have hrest : ∀ w ∈ rest, w.length = cc := fun w hw => hrows w (List.mem_cons_of_mem v hw)
    show _ ∧ _ ∧ _ ∧ _ ∧ _ ∧ _
    by_cases hfull : r.rowPos + 1 = B
    · obtain ⟨a1, a2, a3, a4, a5, a6⟩ := append_step_full r v B cc hcc hv hsz hbp hfull
      have hB : 0 < B := by omega
      obtain ⟨b1, b2, b3, b4, b5, b6⟩ :=
        ih (Bulk.append r v allOk).1 hrest (by rw [a2, hsz]) (by rw [a5, a4]; ring)
          (by rw [a4]; exact hB)
      have hkey : r.rowPos + (rest.length + 1) = rest.length + B := by omega
      have hdiv : (rest.length + B) / B = rest.length / B + 1 := Nat.add_div_right _ hB
      have hmod : (rest.length + B) % B = rest.length % B := Nat.add_mod_right _ _
      refine ⟨?_, ?_, ?_, ?_, ?_, ?_⟩
      · show (runAppends (Bulk.append r v allOk).1 rest).totalRowCount = _
        rw [b1, a1]; simp; omega
      · show (runAppends (Bulk.append r v allOk).1 rest).fullExecs = _
        rw [b2, a6, a4]
        simp only [List.length_cons, hkey, hdiv, Nat.zero_add]
        omega
      · show (runAppends (Bulk.append r v allOk).1 rest).rowPos = _
        rw [b3, a4]
        simp only [List.length_cons, hkey, hmod, Nat.zero_add]
      · show (runAppends (Bulk.append r v allOk).1 rest).bufPos = _
        rw [b4, a4]
        simp only [List.length_cons, hkey, hmod, Nat.zero_add]
      · show (runAppends (Bulk.append r v allOk).1 rest).bufSz = _
        rw [b5, a2]
      · show (runAppends (Bulk.append r v allOk).1 rest).remainderExecs = _
        rw [b6, a3]
    · have hlt2 : r.rowPos + 1 < B := by omega
      obtain ⟨a1, a2, a3, a4, a5, a6⟩ := append_step_notFull r v B cc hcc hv hsz hbp hlt2
      obtain ⟨b1, b2, b3, b4, b5, b6⟩ :=
        ih (Bulk.append r v allOk).1 hrest (by rw [a2, hsz]) (by rw [a5, a4]) (by rw [a4]; exact hlt2)
      have hkey : r.rowPos + 1 + rest.length = r.rowPos + (rest.length + 1) := by omega
      refine ⟨?_, ?_, ?_, ?_, ?_, ?_⟩
      · show (runAppends (Bulk.append r v allOk).1 rest).totalRowCount = _
        rw [b1, a1]; simp; omega
      · show (runAppends (Bulk.append r v allOk).1 rest).fullExecs = _
        rw [b2, a6, a4]
        simp only [List.length_cons, hkey]
      · show (runAppends (Bulk.append r v allOk).1 rest).rowPos = _
        rw [b3, a4]
        simp only [List.length_cons, hkey]
      · show (runAppends (Bulk.append r v allOk).1 rest).bufPos = _
        rw [b4, a4]
        simp only [List.length_cons, hkey]
      · show (runAppends (Bulk.append r v allOk).1 rest).bufSz = _
        rw [b5, a2]
      · show (runAppends (Bulk.append r v allOk).1 rest).remainderExecs = _
        rw [b6, a3]

theorem flush_remainderExecs (r : Bulk) :
    (Bulk.flush r allOkF).1.remainderExecs
      = r.remainderExecs + (if 0 < r.bufPos then 1 else 0) := by
  unfold Bulk.flush flushCommit allOkF
  by_cases h : 0 < r.bufPos <;> by_cases ht : r.txOpen <;> simp [h, ht]

theorem flush_commits (r : Bulk) :
    (Bulk.flush r allOkF).1.commits = r.commits + (if r.txOpen = true then 1 else 0) := by
  unfold Bulk.flush flushCommit allOkF
  by_cases h : 0 < r.bufPos <;> by_cases ht : r.txOpen <;> simp [h, ht]

theorem append_commits (r : Bulk) (v : List Val) :
    (Bulk.append r v allOk).1.commits
      = r.commits
        + (if r.txOpen = true ∧ (r.totalRowCount + 1) % r.maxRowTxCommit = 0
           then 1 else 0) := by
  have htriv : 0 < r.totalRowCount + 1 := Nat.succ_pos _
  unfold Bulk.append appendChecks
  by_cases h : r.txOpen = true ∧ (r.totalRowCount + 1) % r.maxRowTxCommit = 0
  · rw [if_pos (show _ ∧ _ ∧ _ from ⟨h.1, htriv, h.2⟩),
      if_pos (show allOk.commitOk = true from rfl), bufFullCheck_commits]
    simp [h]
  · rw [if_neg (fun hq => h ⟨hq.1, hq.2.2⟩), bufFullCheck_commits]
    simp [h]

theorem isQuoted_quote (x : Str) : isQuoted (bq ++ x ++ bq) = true := by
  unfold isQuoted bq
  rw [Bool.and_eq_true]
  constructor
  · simp [List.isPrefixOf_cons₂]
  · simp [List.isSuffixOf, List.reverse_append, List.isPrefixOf_cons₂]

theorem qId_of_quoted (x : Str) (h : isQuoted x = true) : qId x = x := by
  unfold qId
  rw [if_pos h]

theorem qId_not_nil (x : Str) : qId x ≠ [] := by
  unfold qId
  split_ifs with h
  · intro he
    rw [he] at h
    exact absurd h (by decide)
  · simp [bq]

theorem isQuoted_qId (x : Str) : isQuoted (qId x) = true := by
  unfold qId
  split_ifs with h
  · exact h
  · exact isQuoted_quote x

theorem qId_idem (x : Str) : qId (qId x) = qId x :=
  qId_of_quoted _ (isQuoted_qId x)

theorem fq_empty_schema (t : Str) : FqSchemaTable [] t = qId t := by
  unfold FqSchemaTable
  rw [if_pos rfl]

theorem fq_nonempty_schema (s t : Str) (h : s ≠ []) :
    FqSchemaTable s t = qId s ++ dotStr ++ qId t := by
  unfold FqSchemaTable
  rw [if_neg h]

theorem joinComma_append_single (l : List Str) (x : Str) :
    joinComma (l ++ [x]) = if l = [] then x else joinComma l ++ commaStr ++ x := by
  induction l with
  | nil => simp [joinComma]
  | cons a t ih =>
    cases t with
    | nil => simp [joinComma]
    | cons b t2 =>
      have hne : (a :: b :: t2 : List Str) ≠ [] := by simp
      rw [if_neg hne]
      have h1 : (a :: b :: t2) ++ [x] = a :: ((b :: t2) ++ [x]) := by simp
      rw [h1]
      have h2 : (b :: t2) ++ [x] = b :: (t2 ++ [x]) := by simp
      show a ++ commaStr ++ joinComma ((b :: t2) ++ [x]) = _
      rw [ih, if_neg (by simp)]
      show _ = (a ++ commaStr ++ joinComma (b :: t2)) ++ commaStr ++ x
      simp [List.append_assoc]

theorem rangeJoin_eq_joinComma (f : Nat → Str) (n : Nat) :
    rangeJoin f n = joinComma ((List.range n).map f) := by
  induction n with
  | zero => simp [rangeJoin, joinComma]
  | succ m ih =>
    unfold rangeJoin
    rw [List.range_succ, List.foldl_append]
    show (rangeJoin f m) ++ (if 0 < m then commaStr else []) ++ f m = _
    rw [List.map_append, show List.map f [m] = [f m] from rfl, joinComma_append_single, ih]
    cases m with
    | zero => simp [rangeJoin, joinComma]
    | succ k =>
      rw [if_pos (Nat.succ_pos k), if_neg (by simp [List.range_succ])]

theorem map_getD_range (l : List Str) :
    (List.range l.length).map (fun i => l.getD i []) = l := by
  induction l with
  | nil => simp
  | cons a t ih =>
    rw [List.length_cons, List.range_succ_eq_map, List.map_cons, List.map_map]
    have : ((fun i => (a :: t).getD i []) ∘ Nat.succ) = fun i => t.getD i [] := by
      funext i
      simp
    rw [this, ih]
    simp

theorem map_const_range (c : Str) (n : Nat) :
    (List.range n).map (fun _ => c) = List.replicate n c := by
  induction n with
  | zero => simp
  | succ m ih =>
    rw [List.range_succ, List.map_append, ih, List.replicate_succ' m c]
    simp

theorem flushCommit_state (r : Bulk) (ext : FlushExt) :
    (flushCommit r ext).1.bufPos = r.bufPos ∧
    (flushCommit r ext).1.rowPos = r.rowPos ∧
    (flushCommit r ext).1.colCount = r.colCount ∧
    (flushCommit r ext).1.bufSz = r.bufSz := by
  unfold flushCommit
  split_ifs <;> simp

theorem reachable_strong (cols : List Str) (schema table : Str) (B M : Nat)
    (s : Bulk) (h : Reachable cols schema table B M s) :
    s.colCount = cols.length ∧ s.bufSz = cols.length * B ∧
    s.bufPos = s.rowPos * s.colCount ∧ (s.bufPos < s.bufSz ∨ s.bufPos = 0) := by
  induction h with
  | init =>
    refine ⟨rfl, rfl, by simp [NewBulk], Or.inr rfl⟩
  | append s v hv hs ih =>
    obtain ⟨hc, hsz, hbp, hor⟩ := ih
    unfold Bulk.append
    obtain ⟨r2, heq, hbuf, hpos, hsz2, hrow, htot, hful, hrem, hcol⟩ :=
      appendChecks_toBufFull
        { s with buf := (copyLoop s.buf s.bufPos v).1,
                 bufPos := (copyLoop s.buf s.bufPos v).2,
                 rowPos := s.rowPos + 1,
                 totalRowCount := s.totalRowCount + 1 } allOk rfl
    rw [heq]
    have hp : (copyLoop s.buf s.bufPos v).2 = (s.rowPos + 1) * s.colCount := by
      rw [copyLoop_snd, hbp, hv, hc]
      ring
    have hr2pos : r2.bufPos = (s.rowPos + 1) * s.colCount := by
      rw [hpos]
      show (copyLoop s.buf s.bufPos v).2 = _
      exact hp
    have hr2sz : r2.bufSz = s.bufSz := by
      rw [hsz2]
    have hr2col : r2.colCount = s.colCount := by
      rw [hcol]
    by_cases hge : r2.bufSz ≤ r2.bufPos
    · obtain ⟨e1, e2, e3, e4, e5, e6, e7, e8, e9⟩ := bufFullCheck_full_ok r2 hge
      refine ⟨by rw [e7, hr2col, hc], by rw [e6, hr2sz, hsz], by rw [e2, e3]; ring, Or.inr e2⟩
    · have hlt : r2.bufPos < r2.bufSz := by omega
      rw [bufFullCheck_notFull r2 allOk hlt]
      dsimp only
      exact ⟨by rw [hr2col, hc], by rw [hr2sz, hsz],
        by rw [hr2pos, hr2col, hrow], Or.inl hlt⟩
  | flush s hs ih =>
    obtain ⟨hc, hsz, hbp, hor⟩ := ih
    unfold Bulk.flush
    by_cases h0 : 0 < s.bufPos
    · rw [if_pos h0, if_pos (show allOkF.prepareOk = true from rfl),
        if_pos (show allOkF.execOk = true from rfl)]
      obtain ⟨f1, f2, f3, f4⟩ := flushCommit_state
        { s with remainderExecs := s.remainderExecs + 1,
                 totalRowCount := s.totalRowCount + s.rowPos,
                 bufPos := 0, rowPos := 0 } allOkF
      refine ⟨by rw [f3]; exact hc, by rw [f4]; exact hsz, by rw [f1, f2]; show (0:Nat) = 0 * _; ring, Or.inr (by rw [f1])⟩
    · rw [if_neg h0]
      obtain ⟨f1, f2, f3, f4⟩ := flushCommit_state s allOkF
      exact ⟨by rw [f3]; exact hc, by rw [f4]; exact hsz, by rw [f1, f2, f3]; exact hbp,
        by rw [f1, f4]; exact hor⟩

/-! ### Claim theorems -/

/-- C1: the claim states that the total row count returned by `Flush` equals
the number of rows passed to `Append`.  The code refutes it: `Append`
already counts every row in `totalRowCount` (src/bulk/bulk.go line 46), and
`Flush` adds the remainder row count `rowPos` again (line 103).  Appending
3 rows with batch capacity 2 makes `Flush` report 4. -/
theorem flush_total_overcounts_remainder :
    (Bulk.flush (runAppends (NewBulk [cStr] [] tStr 2 1000)
        [[Val.null], [Val.null], [Val.null]]) allOkF).2.1 = 4 ∧
    ([[Val.null], [Val.null], [Val.null]] : List (List Val)).length = 3 := by
  decide

/-- C2: with batch row capacity `B > 0` and column count `> 0`, appending
`R` rows executes the full-batch prepared statement exactly `R / B` times,
and `Flush` executes exactly one remainder statement when `R % B ≠ 0` and
none when `R % B = 0`. -/
theorem full_and_remainder_exec_counts
    (cols : List Str) (schema table : Str) (B M : Nat)
    (rows : List (List Val)) (hB : 0 < B) (hcc : 0 < cols.length)
    (hrows : ∀ v ∈ rows, v.length = cols.length) :
    (runAppends (NewBulk cols schema table B M) rows).fullExecs = rows.length / B ∧
    (Bulk.flush (runAppends (NewBulk cols schema table B M) rows) allOkF).1.remainderExecs
      = if rows.length % B = 0 then 0 else 1 := by
  obtain ⟨h1, h2, h3, h4, h5, h6⟩ :=
    runAppends_counts B cols.length hcc rows (NewBulk cols schema table B M) hrows rfl
      (by simp [NewBulk]) (by show 0 < B; exact hB)
  constructor
  · rw [h2]
    show 0 + (0 + rows.length) / B = rows.length / B
    simp
  · rw [flush_remainderExecs, h6, h4]
    show 0 + (if 0 < ((0 + rows.length) % B) * cols.length then 1 else 0) = _
    rcases Nat.eq_zero_or_pos (rows.length % B) with hz | hp
    · simp [hz]
    · have hpos : 0 < ((0 + rows.length) % B) * cols.length := by
        rw [Nat.zero_add]
        exact Nat.mul_pos hp hcc
      rw [if_pos hpos, if_neg (by omega)]

/-- Witness for C2 at a concrete input: 1 column, batch capacity 2,
3 rows appended: one full-batch execution and one remainder execution. -/
theorem full_and_remainder_exec_counts_witness :
    (runAppends (NewBulk [cStr] [] tStr 2 1000)
        [[Val.null], [Val.null], [Val.null]]).fullExecs = 1 ∧
    (Bulk.flush (runAppends (NewBulk [cStr] [] tStr 2 1000)
        [[Val.null], [Val.null], [Val.null]]) allOkF).1.remainderExecs = 1 :=
  full_and_remainder_exec_counts [cStr] [] tStr 2 1000
    [[Val.null], [Val.null], [Val.null]] (by decide) (by decide) (by decide)

/-- C3 (counterexample): the claim predicts a commit whenever the total
appended row count reaches a positive multiple of `maxRowTxCommit` (so with
threshold 1, after the very first row).  With batch capacity 2 and
threshold 1, the first `Append` reaches total 1 (a multiple of 1) but the
code performs no commit, because no transaction has been opened yet: the
commit check requires `r.tx != nil` (src/bulk/bulk.go line 49), and a
transaction only opens when the buffer fills (line 58-61). -/
theorem commit_missing_at_threshold_multiple :
    (Bulk.append (NewBulk [cStr] [] tStr 2 1) [Val.null] allOk).1.totalRowCount = 1 ∧
    1 % (NewBulk [cStr] [] tStr 2 1).maxRowTxCommit = 0 ∧
    (Bulk.append (NewBulk [cStr] [] tStr 2 1) [Val.null] allOk).1.commits = 0 := by
  decide

/-- C3 (amended): a commit occurs during `Append` exactly when a
transaction is currently open and the incremented total row count is a
multiple of `maxRowTxCommit` (the check runs after each appended row), and
`Flush` performs exactly one commit iff a transaction is open; in
particular `Commit` is never invoked when no transaction exists (the
commit increment is guarded by the open-transaction condition). -/
theorem commit_iff_txOpen_and_threshold (r : Bulk) (v : List Val) :
    ((Bulk.append r v allOk).1.commits
      = r.commits
        + (if r.txOpen = true ∧ (r.totalRowCount + 1) % r.maxRowTxCommit = 0
           then 1 else 0)) ∧
    ((Bulk.flush r allOkF).1.commits
      = r.commits + (if r.txOpen = true then 1 else 0)) :=
  ⟨append_commits r v, flush_commits r⟩

/-- C4: the claim states that a failing row scan makes `Append` return the
wrapped error.  The code refutes it: the result of `rows.Scan` is
discarded (src/bulk/bulk.go line 37), so even when the scan fails
(`scanOk = false`) `Append` returns nil and counts the row. -/
theorem append_ignores_scan_error :
    (Bulk.append (NewBulk [cStr] [] tStr 2 5) [Val.null]
      { scanOk := false, beginOk := true, execOk := true, commitOk := true }).2 = true ∧
    (Bulk.append (NewBulk [cStr] [] tStr 2 5) [Val.null]
      { scanOk := false, beginOk := true, execOk := true, commitOk := true }).1.totalRowCount
      = 1 := by
  decide

/-- C5: with zero rows appended, `Flush` returns total row count 0 with no
error and does not commit (no transaction was ever opened, `txBegins = 0`),
and `Close` succeeds without error — for every configuration and every
outcome of the external calls. -/
theorem empty_run_flush_and_close_ok (cols : List Str) (schema table : Str)
    (B M : Nat) (ext : FlushExt) (b : Bool) :
    Bulk.flush (NewBulk cols schema table B M) ext
      = (NewBulk cols schema table B M, 0, true) ∧
    (NewBulk cols schema table B M).txOpen = false ∧
    (NewBulk cols schema table B M).txBegins = 0 ∧
    Bulk.close (NewBulk cols schema table B M) b
      = (NewBulk cols schema table B M, true) :=
  ⟨rfl, rfl, rfl, rfl⟩

/-- C6: when the buffer fills inside `Append` and the statement execution
fails, `Append` returns the error and the buffer contents, `bufPos` and
`rowPos` keep their pre-flush values (the copied row included; nothing is
reset). -/
theorem append_exec_failure_keeps_buffer (r : Bulk) (v : List Val) (ext : ExtCall)
    (hfull : r.bufSz ≤ r.bufPos + v.length)
    (he : ext.execOk = false) (hb : ext.beginOk = true) (hc : ext.commitOk = true) :
    (Bulk.append r v ext).2 = false ∧
    (Bulk.append r v ext).1.buf = (copyLoop r.buf r.bufPos v).1 ∧
    (Bulk.append r v ext).1.bufPos = r.bufPos + v.length ∧
    (Bulk.append r v ext).1.rowPos = r.rowPos + 1 := by
  unfold Bulk.append
  obtain ⟨r2, heq, hbuf, hpos, hsz2, hrow, htot, hful, hrem, hcol⟩ :=
    appendChecks_toBufFull
      { r with buf := (copyLoop r.buf r.bufPos v).1,
               bufPos := (copyLoop r.buf r.bufPos v).2,
               rowPos := r.rowPos + 1,
               totalRowCount := r.totalRowCount + 1 } ext hc
  rw [heq]
  have hp : (copyLoop r.buf r.bufPos v).2 = r.bufPos + v.length :=
    copyLoop_snd v r.buf r.bufPos
  have hge : r2.bufSz ≤ r2.bufPos := by
    rw [hsz2, hpos]
    show r.bufSz ≤ (copyLoop r.buf r.bufPos v).2
    rw [hp]
    exact hfull
  obtain ⟨e1, e2, e3, e4, e5⟩ := bufFullCheck_execFail r2 ext hge he hb
  refine ⟨e1, ?_, ?_, ?_⟩
  · rw [e4, hbuf]
  · rw [e2, hpos]
    show (copyLoop r.buf r.bufPos v).2 = _
    exact hp
  · rw [e3, hrow]

/-- Witness for C6: one column, batch capacity 1, a failing execution on
the first append: the error is surfaced and the buffered row is kept. -/
theorem append_exec_failure_keeps_buffer_witness :
    (Bulk.append (NewBulk [cStr] [] tStr 1 5) [Val.int 7]
      { scanOk := true, beginOk := true, execOk := false, commitOk := true }).2 = false ∧
    (Bulk.append (NewBulk [cStr] [] tStr 1 5) [Val.int 7]
      { scanOk := true, beginOk := true, execOk := false, commitOk := true }).1.buf
      = (copyLoop (NewBulk [cStr] [] tStr 1 5).buf
          (NewBulk [cStr] [] tStr 1 5).bufPos [Val.int 7]).1 ∧
    (Bulk.append (NewBulk [cStr] [] tStr 1 5) [Val.int 7]
      { scanOk := true, beginOk := true, execOk := false, commitOk := true }).1.bufPos = 1 ∧
    (Bulk.append (NewBulk [cStr] [] tStr 1 5) [Val.int 7]
      { scanOk := true, beginOk := true, execOk := false, commitOk := true }).1.rowPos = 1 :=
  append_exec_failure_keeps_buffer (NewBulk [cStr] [] tStr 1 5) [Val.int 7]
    { scanOk := true, beginOk := true, execOk := false, commitOk := true }
    (by decide) rfl rfl rfl

/-- C7: identifier quoting in `FqSchemaTable` is idempotent — quoting the
already-quoted schema and table (the outputs of the empty-schema form,
which quotes a single identifier) changes nothing; an empty schema yields
only the quoted table with no leading separator; a nonempty schema yields
quoted schema, dot, quoted table (backquote quoting for this dialect). -/
theorem fqSchemaTable_idempotent_quoting :
    (∀ t, FqSchemaTable [] (FqSchemaTable [] t) = FqSchemaTable [] t) ∧
    (∀ s t, s ≠ [] →
      FqSchemaTable (FqSchemaTable [] s) (FqSchemaTable [] t) = FqSchemaTable s t) ∧
    FqSchemaTable [] ("orders".toList) = "`orders`".toList ∧
    FqSchemaTable ("public".toList) ("orders".toList) = "`public`.`orders`".toList := by
  refine ⟨?_, ?_, by decide, by decide⟩
  · intro t
    rw [fq_empty_schema, fq_empty_schema, qId_idem]
  · intro s t hs
    rw [fq_empty_schema, fq_empty_schema, fq_nonempty_schema _ _ (qId_not_nil s),
      fq_nonempty_schema _ _ hs, qId_idem, qId_idem]

/-- Witness for C7: requoting the quoted forms of `public` and `orders`
yields the same qualified name as quoting the raw identifiers. -/
theorem fqSchemaTable_idempotent_quoting_witness :
    FqSchemaTable (FqSchemaTable [] ("public".toList)) (FqSchemaTable [] ("orders".toList))
      = FqSchemaTable ("public".toList) ("orders".toList) :=
  fqSchemaTable_idempotent_quoting.2.1 ("public".toList) ("orders".toList) (by decide)

/-- C8: for every row count and column list, the SQL text built by
`prepare` equals the spec shape: `INSERT INTO <qualified-table>
(<col1>,...,<colN>) VALUES` followed by exactly `rowCount` parenthesized
placeholder groups separated by commas, each containing exactly `N`
placeholders. -/
theorem prepare_builds_spec_shape (schema tableName : Str)
    (columns : List Str) (rowCount : Nat) :
    prepareSql schema tableName columns rowCount
      = specInsertSql schema tableName columns rowCount := by
  unfold prepareSql specInsertSql
  rw [rangeJoin_eq_joinComma (fun i => columns.getD i []) columns.length, map_getD_range,
    rangeJoin_eq_joinComma _ rowCount, map_const_range,
    rangeJoin_eq_joinComma (fun _ => "?".toList) columns.length, map_const_range]

/-- C9: the buffer invariant `0 ≤ bufPos ≤ bufferCapacity` and
`bufPos = rowPos * colCount` (with capacity `bufSz = colCount * B`) holds
after `NewBulk` and is preserved by every successful `Append` and `Flush`
call, i.e. it holds in every reachable state. -/
theorem buffer_invariant (cols : List Str) (schema table : Str) (B M : Nat)
    (s : Bulk) (h : Reachable cols schema table B M s) :
    s.bufPos = s.rowPos * s.colCount ∧ s.bufPos ≤ s.bufSz ∧
    s.bufSz = s.colCount * B ∧ s.colCount = cols.length := by
  obtain ⟨hc, hsz, hbp, hor⟩ := reachable_strong cols schema table B M s h
  refine ⟨hbp, ?_, by rw [hsz, hc], hc⟩
  rcases hor with h1 | h1
  · exact Nat.le_of_lt h1
  · rw [h1]
    exact Nat.zero_le _

/-- Witness for C9: the invariant at the state reached by one append from
a fresh inserter with one column and batch capacity 2. -/
theorem buffer_invariant_witness :
    (Bulk.append (NewBulk [cStr] [] tStr 2 7) [Val.null] allOk).1.bufPos
      = (Bulk.append (NewBulk [cStr] [] tStr 2 7) [Val.null] allOk).1.rowPos
        * (Bulk.append (NewBulk [cStr] [] tStr 2 7) [Val.null] allOk).1.colCount ∧
    (Bulk.append (NewBulk [cStr] [] tStr 2 7) [Val.null] allOk).1.bufPos
      ≤ (Bulk.append (NewBulk [cStr] [] tStr 2 7) [Val.null] allOk).1.bufSz ∧
    (Bulk.append (NewBulk [cStr] [] tStr 2 7) [Val.null] allOk).1.bufSz
      = (Bulk.append (NewBulk [cStr] [] tStr 2 7) [Val.null] allOk).1.colCount * 2 ∧
    (Bulk.append (NewBulk [cStr] [] tStr 2 7) [Val.null] allOk).1.colCount
      = ([cStr] : List Str).length :=
  buffer_invariant [cStr] [] tStr 2 7 (Bulk.append (NewBulk [cStr] [] tStr 2 7) [Val.null] allOk).1
    (Reachable.append (NewBulk [cStr] [] tStr 2 7) [Val.null] rfl Reachable.init)

/-- C10: `Close` always returns a nil error whatever the outcome of the
discarded `stmt.Close` call, and leaves the whole inserter state (buffer,
positions, counters, transaction handle) unchanged. -/
theorem close_always_nil_and_unchanged (r : Bulk) (b : Bool) :
    Bulk.close r b = (r, true) := rfl

end GoDatapipe
